import Mathlib

/-
  Verification of the camptrack direct-messaging subsystem.

  Shallow embedding of:
  - src/camptrack/utils/pagination.py  (get_page_data, process_pagination_command)
  - src/camptrack/chat.py              (MessagingInterface: chats aggregation,
    message windows, read receipts, polling watermark, menu digit selection)

  SQLite rows are modelled as Lean structures; a table is a list of rows in
  storage (insertion / rowid) order.  `ORDER BY` is modelled as a stable
  insertion sort, so rows with equal keys keep storage order (one admissible
  realisation of SQLite, which leaves tie order unspecified).  Machine
  integers are modelled as Nat (ids, timestamps, page numbers are small and
  non-negative throughout the program).
-/

namespace Camptrack


/-! ## Pagination helper (src/camptrack/utils/pagination.py) -/

/-- `get_page_data(data, page_number, page_size)` from pagination.py:
returns the requested page's slice and the total number of pages.
`math.ceil(len(data) / page_size)` is `(len + size - 1) / size` for a
positive size; the requested page is clamped by
`max(1, min(page_number, num_pages))`. Empty data short-circuits to
`([], 0)`. -/
def get_page_data {α : Type} (data : List α) (page_number : Nat) (page_size : Nat) :
    List α × Nat :=
  if data.isEmpty then ([], 0)
  else
    let num_pages := (data.length + page_size - 1) / page_size
    let current_page := max 1 (min page_number num_pages)
    let start_idx := (current_page - 1) * page_size
    ((data.drop start_idx).take page_size, num_pages)

/-- Python `str.lower()` restricted to ASCII letters (all pagination commands
are ASCII). -/
def asciiLower : Char → Char
  | 'A' => 'a' | 'B' => 'b' | 'C' => 'c' | 'D' => 'd' | 'E' => 'e' | 'F' => 'f'
  | 'G' => 'g' | 'H' => 'h' | 'I' => 'i' | 'J' => 'j' | 'K' => 'k' | 'L' => 'l'
  | 'M' => 'm' | 'N' => 'n' | 'O' => 'o' | 'P' => 'p' | 'Q' => 'q' | 'R' => 'r'
  | 'S' => 's' | 'T' => 't' | 'U' => 'u' | 'V' => 'v' | 'W' => 'w' | 'X' => 'x'
  | 'Y' => 'y' | 'Z' => 'z'
  | c => c

/-- The whitespace characters removed by Python `str.strip()` (ASCII range). -/
def isPySpace (c : Char) : Bool :=
  c == ' ' || c == '\t' || c == '\n' || c == '\r' || c == '\x0b' || c == '\x0c'

/-- Python `str.lower()` on a whole string (ASCII model). -/
def strLower (s : String) : String := String.mk (s.data.map asciiLower)

/-- Python `str.strip()`: drop leading and trailing whitespace. -/
def strStrip (s : String) : String :=
  String.mk (((s.data.dropWhile isPySpace).reverse.dropWhile isPySpace).reverse)

/-- One decimal digit of Python `int()`. -/
def charDigit (c : Char) : Option Nat :=
  if 48 ≤ c.toNat ∧ c.toNat ≤ 57 then some (c.toNat - 48) else none

/-- Digit-string value, `none` when empty or any character is not a digit. -/
def parseDigits (cs : List Char) : Option Nat :=
  match cs with
  | [] => none
  | _ => cs.foldl
      (fun acc c =>
        match acc, charDigit c with
        | some n, some d => some (n * 10 + d)
        | _, _ => none)
      (some 0)

/-- Python `int(s)` on an already-stripped string: optional minus sign then
decimal digits, `ValueError` modelled as `none`. -/
def pyInt (s : List Char) : Option Int :=
  match s with
  | '-' :: rest => (parseDigits rest).map (fun n => -(n : Int))
  | _ => (parseDigits s).map (fun n => (n : Int))

/-- `process_pagination_command(command, current_page, num_pages)` from
pagination.py: lower-cases and strips the command, then handles
p / n / f / l / g#; any unhandled input returns `(current_page, false)`
so the caller treats it as a custom command. -/
def process_pagination_command (command : String) (current_page num_pages : Nat) :
    Nat × Bool :=
  let cmd := strStrip (strLower command)
  if cmd = "p" ∧ 1 < current_page then (current_page - 1, true)
  else if cmd = "n" ∧ current_page < num_pages then (current_page + 1, true)
  else if cmd = "f" then (1, true)
  else if cmd = "l" then (num_pages, true)
  else if cmd.data.head? = some 'g' then
    match pyInt (cmd.data.drop 1) with
    | some v => if 1 ≤ v ∧ v ≤ (num_pages : Int) then (v.toNat, true)
                else (current_page, true)
    | none => (current_page, false)
  else (current_page, false)

/-! ## Message store (the `messages` table used by src/camptrack/chat.py)

A row of the `messages` table: `id` is the INTEGER PRIMARY KEY (assigned
monotonically by the store), `created_at` the insertion timestamp (the
`'%Y-%m-%d %H:%M:%S'` strings compare lexicographically, i.e.
chronologically, so it is modelled as a Nat with second granularity).
Only `is_read` is ever updated. -/
structure Message where
  id : Nat
  sender_id : Nat
  recipient_id : Nat
  message : String
  created_at : Nat
  is_read : Bool
deriving DecidableEq, Repr

/-- The `messages` table: rows in storage (rowid) order. -/
abbrev DB := List Message

/-- Whether a message belongs to the two-party conversation between `uid`
and `other` (either direction) — the WHERE clause shared by
`messages_with`, `total_messages_with` and the poller query. -/
def Message.inThread (m : Message) (uid other : Nat) : Bool :=
  (m.sender_id == uid && m.recipient_id == other) ||
  (m.sender_id == other && m.recipient_id == uid)

/-- `ORDER BY created_at DESC` as a relation. -/
def createdDesc (a b : Message) : Prop := b.created_at ≤ a.created_at

instance : DecidableRel createdDesc := fun a b => Nat.decLe b.created_at a.created_at

instance : IsTotal Message createdDesc :=
  ⟨fun a b => Nat.le_total b.created_at a.created_at⟩

instance : IsTrans Message createdDesc :=
  ⟨fun _ _ _ hab hbc => Nat.le_trans hbc hab⟩

/-- `ORDER BY id ASC` as a relation. -/
def idAsc (a b : Message) : Prop := a.id ≤ b.id

instance : DecidableRel idAsc := fun a b => Nat.decLe a.id b.id

instance : IsTotal Message idAsc := ⟨fun a b => Nat.le_total a.id b.id⟩

instance : IsTrans Message idAsc := ⟨fun _ _ _ hab hbc => Nat.le_trans hab hbc⟩

/-- `ORDER BY created_at DESC`.  SQLite leaves the order of equal keys
unspecified; the model realises it as a stable sort, so ties keep storage
order. -/
def orderByCreatedDesc (l : List Message) : List Message := l.insertionSort createdDesc

/-- `ORDER BY m.id ASC` (ids are unique in the real table, so tie order is
irrelevant). -/
def orderByIdAsc (l : List Message) : List Message := l.insertionSort idAsc

/-- `MessagingInterface.total_messages_with`: `COUNT(*)` of the
conversation's messages. -/
def total_messages_with (db : DB) (uid other : Nat) : Nat :=
  (db.filter (fun m => m.inThread uid other)).length

/-- `MessagingInterface.messages_with(other, limit, offset)`: the
conversation's messages ordered by `created_at DESC`, `LIMIT limit OFFSET
offset`, and finally `list(reversed(...))` so the window reads oldest
first. -/
def messages_with (db : DB) (uid other limit offset : Nat) : List Message :=
  (((orderByCreatedDesc (db.filter (fun m => m.inThread uid other))).drop offset).take
    limit).reverse

/-- `self.messages_per_page = 10` in `MessagingInterface.__init__`. -/
def messages_per_page : Nat := 10

/-- The bulk read receipt run by `goto_chat_view` on opening a chat:
`UPDATE messages SET is_read = 1 WHERE sender_id = partner AND
recipient_id = user`. -/
def mark_read_on_open (db : DB) (uid pid : Nat) : DB :=
  db.map (fun m =>
    if m.sender_id == pid && m.recipient_id == uid then { m with is_read := true } else m)

/-- The claim/spec formula for an unread count: number of rows with
`recipient_id = user`, `sender_id = partner`, `is_read = false`. -/
def unread_from (db : DB) (uid pid : Nat) : Nat :=
  (db.filter (fun m =>
    m.recipient_id == uid && m.sender_id == pid && m.is_read == false)).length

/-- The initial window loaded by `goto_chat_view`: the most recent
`messages_per_page` messages (`history_offset` starts at 0). -/
def initial_window (db : DB) (uid pid : Nat) : List Message :=
  messages_with db uid pid messages_per_page 0

/-- `self.last_msg = messages[-1]['id'] if messages else 0` after the
initial window is loaded. -/
def initial_last_msg (db : DB) (uid pid : Nat) : Nat :=
  ((initial_window db uid pid).map Message.id).getLastD 0

/-! ## Live poller (`poll_and_print_new_messages_in_thread`) -/

/-- The poller's SELECT: all conversation messages with `id >` the
watermark, `ORDER BY m.id ASC`. -/
def poller_fetch (db : DB) (uid pid last : Nat) : List Message :=
  orderByIdAsc (db.filter (fun m => decide (last < m.id) && m.inThread uid pid))

/-- `UPDATE messages SET is_read = 1 WHERE id = ?` — the per-message read
receipt issued by the poller. -/
def mark_read_by_id (db : DB) (mid : Nat) : DB :=
  db.map (fun m => if m.id == mid then { m with is_read := true } else m)

/-- The read receipts issued while the poller walks one fetched batch: each
row whose sender is the open-chat partner (`self.recipient_id ==
row['sender_id']`) is marked read. -/
def apply_read_receipts (pid : Nat) (db : DB) (rows : List Message) : DB :=
  rows.foldl (fun d r => if pid == r.sender_id then mark_read_by_id d r.id else d) db

/-- `self.last_msg = row['id']` executed for each row of a batch in order:
the final watermark after the batch (unchanged for an empty batch). -/
def batch_last (last : Nat) (batch : List Message) : Nat :=
  batch.foldl (fun _ m => m.id) last

/-- One iteration of the poller body: fetch the batch, render every row,
mark the partner-sent rows read, advance the watermark row by row.
Returns (updated store, new watermark, rendered rows). -/
def poller_iteration (db : DB) (uid pid last : Nat) : DB × Nat × List Message :=
  let batch := poller_fetch db uid pid last
  (apply_read_receipts pid db batch, batch_last last batch, batch)

/-! ## Conversation-menu digit selection (`MessagingInterface.run`) -/

/-- Result of the `case _ if command.isdigit():` branch of the menu loop. -/
inductive DigitOutcome
  | skipped
  | opened (i : Nat)
  | indexError
deriving DecidableEq, Repr

/-- The digit branch of `MessagingInterface.run`:
`i = int(command) - 1; if i < 0 or i > len(chats): continue` and otherwise
`chats[i]` is accessed.  The guard admits `i = len(chats)`, for which
`chats[i]` raises IndexError. -/
def run_digit_command (numChats command : Nat) : DigitOutcome :=
  let i : Int := (command : Int) - 1
  if i < 0 ∨ (numChats : Int) < i then DigitOutcome.skipped
  else if i.toNat < numChats then DigitOutcome.opened i.toNat
  else DigitOutcome.indexError

/-- The loop body of `run()` sits in `try ... except Exception:
print('Sorry, we are facing technical difficulties.'); break` — an
IndexError escapes the digit branch and terminates the whole interface. -/
def run_survives_digit (numChats command : Nat) : Bool :=
  match run_digit_command numChats command with
  | DigitOutcome.indexError => false
  | _ => true

/-! ## C4: read receipts on chat open -/

/-! ## C5: one poller iteration -/

/-! ## C2: the watermark across an open-chat session

A session is the initial window load on the store `db0` followed by one
poller iteration per element of `dbs` (the store as seen at each poll; the
store only ever grows, but nothing below depends on that).  The state is
(watermark `last_msg`, all messages rendered so far). -/

/-- One poller iteration as a state transformer: fetch past the watermark,
render the batch, advance the watermark row by row. -/
def poll_step (uid pid : Nat) (st : Nat × List Message) (db : DB) :
    Nat × List Message :=
  (batch_last st.1 (poller_fetch db uid pid st.1),
   st.2 ++ poller_fetch db uid pid st.1)

/-- The session state after the initial window load and one poller
iteration per store snapshot in `dbs`. -/
def session_run (uid pid : Nat) (db0 : DB) (dbs : List DB) : Nat × List Message :=
  dbs.foldl (poll_step uid pid) (initial_last_msg db0 uid pid, initial_window db0 uid pid)

/-- Ids strictly aligned with timestamps: no two rows share an id, and id
order coincides with `created_at` order.  This holds of every store the
program itself produces as long as no two messages of the thread fall in
the same wall-clock second (`created_at` has second granularity). -/
def ids_aligned (l : List Message) : Prop :=
  (l.map Message.id).Nodup ∧
  ∀ m ∈ l, ∀ m2 ∈ l, (m.id < m2.id ↔ m.created_at < m2.created_at)

instance (l : List Message) : Decidable (ids_aligned l) := by
  unfold ids_aligned
  infer_instance

/-- Two partner messages written within the same second, returned by the
`created_at DESC` query in storage order. -/
def cxA : Message := ⟨1, 2, 1, "a", 100, false⟩

/-- See `cxA`: same timestamp, higher id. -/
def cxB : Message := ⟨2, 2, 1, "b", 100, false⟩

/-! ## C3: "load older" windows -/

/-- `MessagingInterface.get_older_messages_from`: the next older window.
`offset = history_offset + messages_per_page`; when `total <= offset` the
command only prints "No older messages" (the empty window); otherwise it
fetches the next `messages_per_page` messages at that offset. -/
def older_window (db : DB) (uid pid history_offset : Nat) : List Message :=
  if total_messages_with db uid pid ≤ history_offset + messages_per_page then []
  else messages_with db uid pid messages_per_page (history_offset + messages_per_page)

/-- On a fixed store, the window of the k-th load of a session: successful
`/more` loads advance `history_offset` by `messages_per_page` each time, so
load `k` reads offset `messages_per_page * k` (`k = 0` is the initial
window). -/
def window_at (db : DB) (uid pid k : Nat) : List Message :=
  messages_with db uid pid messages_per_page (messages_per_page * k)

/-- A partner-to-user message with id and timestamp `i`. -/
def pMsg (i : Nat) : Message := ⟨i, 2, 1, "", i, false⟩

/-- An 11-message thread as stored at the initial window load. -/
def cxDb11 : DB := (List.range' 1 11).map pMsg

/-! ## C6 / C9: the conversation aggregator (`MessagingInterface.chats`) -/

/-- A row of the `users` table (the columns the chat queries touch). -/
structure UserRow where
  id : Nat
  username : String
  role : String
  is_disabled : Bool
deriving DecidableEq, Repr

/-- A row of the `chat_threads` CTE: a message involving the current user,
with the conversation partner computed by the CASE expression. -/
structure ThreadRow where
  sender_id : Nat
  chat_partner_id : Nat
  message : String
  timestamp : Nat
deriving DecidableEq, Repr

/-- A row of the final SELECT of `MessagingInterface.chats`. -/
structure ChatRow where
  chat_partner_username : String
  role : String
  sender_id : Nat
  chat_partner_id : Nat
  message : String
  timestamp : Nat
  num_unread : Nat
deriving DecidableEq, Repr

/-- The `chat_threads` CTE: all messages involving the user; the partner is
the recipient when the user sent it, else the sender. -/
def chat_threads (db : DB) (uid : Nat) : List ThreadRow :=
  (db.filter (fun m => m.sender_id == uid || m.recipient_id == uid)).map
    (fun m => ⟨m.sender_id,
      if m.sender_id == uid then m.recipient_id else m.sender_id,
      m.message, m.created_at⟩)

/-- `ORDER BY timestamp DESC` for thread rows (the `ROW_NUMBER() OVER
(PARTITION BY chat_partner_id ORDER BY timestamp DESC)` window). -/
def threadTsDesc (a b : ThreadRow) : Prop := b.timestamp ≤ a.timestamp

instance : DecidableRel threadTsDesc := fun a b => Nat.decLe b.timestamp a.timestamp

instance : IsTotal ThreadRow threadTsDesc := ⟨fun a b => Nat.le_total b.timestamp a.timestamp⟩

instance : IsTrans ThreadRow threadTsDesc := ⟨fun _ _ _ hab hbc => Nat.le_trans hbc hab⟩

/-- `ORDER BY lt.timestamp DESC` for the final result rows. -/
def chatTsDesc (a b : ChatRow) : Prop := b.timestamp ≤ a.timestamp

instance : DecidableRel chatTsDesc := fun a b => Nat.decLe b.timestamp a.timestamp

instance : IsTotal ChatRow chatTsDesc := ⟨fun a b => Nat.le_total b.timestamp a.timestamp⟩

instance : IsTrans ChatRow chatTsDesc := ⟨fun _ _ _ hab hbc => Nat.le_trans hbc hab⟩

/-- The `msg_rank = 1` row for one partner: the thread row with the latest
timestamp (ties by storage order, as in `orderByCreatedDesc`). -/
def latest_for_partner (db : DB) (uid p : Nat) : Option ThreadRow :=
  (((chat_threads db uid).filter (fun t => t.chat_partner_id == p)).insertionSort
    threadTsDesc).head?

/-- The `unread_totals` CTE: `COUNT(*) ... WHERE recipient_id = ? AND
is_read = 0 GROUP BY sender_id` — one (sender, count) row per distinct
sender with at least one unread message to the user. -/
def unread_totals (db : DB) (uid : Nat) : List (Nat × Nat) :=
  (((db.filter (fun m => m.recipient_id == uid && m.is_read == false)).map
      Message.sender_id).dedup).map
    (fun s => (s, ((db.filter (fun m => m.recipient_id == uid && m.is_read == false)).filter
        (fun m => m.sender_id == s)).length))

/-- `COALESCE(ut.num_unread, 0)` after the LEFT JOIN on the partner id. -/
def num_unread_of (db : DB) (uid p : Nat) : Nat :=
  match (unread_totals db uid).find? (fun r => r.1 == p) with
  | some r => r.2
  | none => 0

/-- The full (unlimited) result of `MessagingInterface.chats`: one row per
distinct nondisabled conversation partner, carrying the latest message and
the coalesced unread count, ordered by latest-message timestamp
descending. -/
def chats_all (db : DB) (users : List UserRow) (uid : Nat) : List ChatRow :=
  ((((chat_threads db uid).map ThreadRow.chat_partner_id).dedup).filterMap
    (fun p =>
      match latest_for_partner db uid p,
        users.find? (fun u => u.id == p && u.is_disabled == false) with
      | some t, some u =>
          some ⟨u.username, u.role, t.sender_id, p, t.message, t.timestamp,
            num_unread_of db uid p⟩
      | _, _ => none)).insertionSort chatTsDesc

/-- Python truthiness of the `limit` argument: `if limit:` appends the
LIMIT/OFFSET clause only when limit is neither None nor 0. -/
def limit_truthy : Option Nat → Bool
  | none => false
  | some n => n != 0

/-- `MessagingInterface.chats(limit, offset)`. -/
def chats (db : DB) (users : List UserRow) (uid : Nat) (limit : Option Nat)
    (offset : Nat) : List ChatRow :=
  if limit_truthy limit then ((chats_all db users uid).drop offset).take (limit.getD 0)
  else chats_all db users uid

/-! ## Theorems -/

/-- Concatenating chunks `take s (drop (j*s) l)` for `j < n` reproduces
`l.take (n*s)`. -/
theorem chunks_join {α : Type} (s : Nat) :
    ∀ (n : Nat) (l : List α),
      ((List.range n).map (fun j => (l.drop (j * s)).take s)).flatten = l.take (n * s)
  | 0, _ => by simp
  | n + 1, l => by
      rw [List.range_succ, List.map_append, List.flatten_append, chunks_join s n l]
      simp only [List.map_cons, List.map_nil, List.flatten_cons, List.flatten_nil,
        List.append_nil, Nat.succ_mul]
      rw [List.take_add]

/-- For a positive page size, `ceil(len/s) * s` covers the whole list. -/
theorem length_le_pages_mul (len s : Nat) (hs : 0 < s) :
    len ≤ ((len + s - 1) / s) * s := by
  rw [Nat.mul_comm]
  have hdm := Nat.div_add_mod (len + s - 1) s
  have hlt := Nat.mod_lt (len + s - 1) hs
  omega

/-- With non-empty data, `get_page_data` returns the clamped page's slice and
the ceiling page count. -/
theorem get_page_data_eq {α : Type} (data : List α) (pn s : Nat)
    (hd : ¬ data.isEmpty) :
    get_page_data data pn s =
      ((data.drop ((max 1 (min pn ((data.length + s - 1) / s)) - 1) * s)).take s,
       (data.length + s - 1) / s) := by
  unfold get_page_data
  rw [if_neg hd]

/-- C7: for non-empty `data` and page size `s > 0`, concatenating the pages
`get_page_data(data, k, s)` for `k` from 1 to `ceil(len(data)/s)` in order
yields exactly `data`: every element appears exactly once, in the original
order. -/
theorem C7_pagination_round_trip {α : Type} (data : List α) (s : Nat)
    (hd : data ≠ []) (hs : 0 < s) :
    ((List.range' 1 ((data.length + s - 1) / s)).map
      (fun k => (get_page_data data k s).1)).flatten = data := by
  have hne : ¬ data.isEmpty := by simpa using hd
  rw [List.range'_eq_map_range, List.map_map]
  have hmap : ∀ j ∈ List.range ((data.length + s - 1) / s),
      ((fun k => (get_page_data data k s).1) ∘ (fun x => 1 + x)) j
        = (data.drop (j * s)).take s := by
    intro j hj
    have hjlt : j < (data.length + s - 1) / s := List.mem_range.mp hj
    have hclamp : max 1 (min (1 + j) ((data.length + s - 1) / s)) = 1 + j := by
      rw [Nat.min_eq_left (by omega)]
      exact Nat.max_eq_right (by omega)
    have hj1 : 1 + j - 1 = j := by omega
    simp only [Function.comp_apply]
    rw [get_page_data_eq data (1 + j) s hne]
    simp only [hclamp, hj1]
  rw [List.map_congr_left hmap, chunks_join s ((data.length + s - 1) / s) data,
    List.take_of_length_le (length_le_pages_mul data.length s hs)]

/-- C7 holds at a concrete instance: 3 elements, page size 2. -/
theorem C7_pagination_round_trip_holds_at_instance :
    ((List.range' 1 (([10, 20, 30].length + 2 - 1) / 2)).map
      (fun k => (get_page_data [10, 20, 30] k 2).1)).flatten = [10, 20, 30] :=
  C7_pagination_round_trip [10, 20, 30] 2 (by decide) (by decide)

/-- C8: for every list and page size `s > 0`, `get_page_data` reports
`ceil(total_items / s)` total pages and returns the slice of the requested
page clamped into `[1, max 1 total_pages]` (for empty input this means the
page is clamped to 1 with total 0 — the empty slice signals the empty result
set); in the 12-item / page-size-5 scenario the pages hold 5, 5 and 2 items
and page 4 returns page 3's slice. -/
theorem C8_total_pages_ceil_and_clamp {α : Type} (data : List α) (pn s : Nat)
    (hs : 0 < s) :
    ((get_page_data data pn s).2 = (data.length + s - 1) / s ∧
     ∃ cp, cp = max 1 (min pn ((data.length + s - 1) / s)) ∧
       1 ≤ cp ∧ cp ≤ max 1 ((data.length + s - 1) / s) ∧
       (get_page_data data pn s).1 = (data.drop ((cp - 1) * s)).take s) ∧
    ((get_page_data (List.range 12) 1 5).1.length = 5 ∧
     (get_page_data (List.range 12) 2 5).1.length = 5 ∧
     (get_page_data (List.range 12) 3 5).1.length = 2 ∧
     (get_page_data (List.range 12) 4 5).1 = (get_page_data (List.range 12) 3 5).1) := by
  refine ⟨?_, by decide⟩
  by_cases hd : data.isEmpty
  · have hdata : data = [] := by simpa using hd
    subst hdata
    have hz : ((List.nil (α := α)).length + s - 1) / s = 0 := by
      simp only [List.length_nil]
      exact Nat.div_eq_of_lt (by omega)
    refine ⟨by simp [get_page_data]; exact (Nat.div_eq_of_lt (by omega)).symm, 1, ?_,
      le_refl 1, ?_, by simp [get_page_data]⟩
    · rw [hz]; simp
    · rw [hz]; exact le_max_left 1 0
  · rw [get_page_data_eq data pn s hd]
    refine ⟨rfl, max 1 (min pn ((data.length + s - 1) / s)), rfl, le_max_left _ _,
      ?_, rfl⟩
    exact max_le_max (le_refl 1) (min_le_right _ _)

/-- C8 holds at a concrete instance: 3 elements, page size 2, page 7 requested
(clamps to page 2). -/
theorem C8_total_pages_ceil_and_clamp_holds_at_instance :
    (get_page_data [10, 20, 30] 7 2).2 = (([10, 20, 30] : List Nat).length + 2 - 1) / 2 ∧
    ∃ cp, cp = max 1 (min 7 ((([10, 20, 30] : List Nat).length + 2 - 1) / 2)) ∧
      1 ≤ cp ∧ cp ≤ max 1 ((([10, 20, 30] : List Nat).length + 2 - 1) / 2) ∧
      (get_page_data [10, 20, 30] 7 2).1 = (([10, 20, 30] : List Nat).drop ((cp - 1) * 2)).take 2 :=
  (C8_total_pages_ceil_and_clamp [10, 20, 30] 7 2 (by decide)).1

/-- C10: `process_pagination_command` returns `(current_page, false)` —
reporting the input as not a pagination command — for `p` on page 1 and for
`n` on the last page, rather than a handled no-op. -/
theorem C10_boundary_paging_not_handled :
    ∀ (np cp : Nat),
      process_pagination_command "p" 1 np = (1, false) ∧
      process_pagination_command "n" cp cp = (cp, false) := by
  intro np cp
  have hp : strStrip (strLower "p") = "p" := rfl
  have hn : strStrip (strLower "n") = "n" := rfl
  constructor
  · simp [process_pagination_command, hp]
  · simp [process_pagination_command, hn, Nat.lt_irrefl]

/-- C1 (code bug): with one listed conversation, the digit command `2`
passes the off-by-one guard (`i > len(chats)` where `i >= len(chats)` was
intended), `chats[i]` raises IndexError, and the blanket exception handler
terminates the chat interface — so this out-of-range selection is fatal,
unlike the selections the guard does catch (`3` is skipped silently and the
in-range `1` opens a chat). -/
theorem C1_out_of_range_selection_fatal :
    run_digit_command 1 2 = DigitOutcome.indexError ∧
    run_survives_digit 1 2 = false ∧
    run_digit_command 1 3 = DigitOutcome.skipped ∧
    run_digit_command 1 0 = DigitOutcome.skipped ∧
    run_digit_command 1 1 = DigitOutcome.opened 0 := by decide

/-- On any store, the bulk receipt leaves no unread message from the opened
partner. -/
theorem unread_from_mark_read_on_open (db : DB) (uid pid : Nat) :
    unread_from (mark_read_on_open db uid pid) uid pid = 0 := by
  unfold unread_from
  rw [List.filter_eq_nil_iff.mpr]
  · rfl
  intro m2 hm2
  obtain ⟨m, _, rfl⟩ := List.mem_map.mp hm2
  by_cases h : (m.sender_id == pid && m.recipient_id == uid) = true
  · simp only [h, if_pos]
    simp
  · rw [if_neg h]
    simp only [Bool.and_eq_true, beq_iff_eq] at h ⊢
    tauto

/-- C4: opening a chat with partner `pid` marks exactly the `pid → uid`
messages read: the unread count from `pid` becomes 0, every row not of the
form (sender `pid`, recipient `uid`) is unchanged (same position, same
fields), and the unread count from any other partner `q ≠ pid` is
untouched. -/
theorem C4_open_chat_marks_partner_read_only (db : DB) (uid pid q : Nat)
    (hq : q ≠ pid) :
    unread_from (mark_read_on_open db uid pid) uid pid = 0 ∧
    (mark_read_on_open db uid pid).length = db.length ∧
    (∀ i (h1 : i < db.length) (h2 : i < (mark_read_on_open db uid pid).length),
      ¬ ((db.get ⟨i, h1⟩).sender_id = pid ∧ (db.get ⟨i, h1⟩).recipient_id = uid) →
      (mark_read_on_open db uid pid).get ⟨i, h2⟩ = db.get ⟨i, h1⟩) ∧
    unread_from (mark_read_on_open db uid pid) uid q = unread_from db uid q := by
  refine ⟨unread_from_mark_read_on_open db uid pid, List.length_map db _, ?_, ?_⟩
  · intro i h1 h2 hneg
    unfold mark_read_on_open
    simp only [List.get_eq_getElem, List.getElem_map]
    rw [if_neg]
    simp only [Bool.and_eq_true, beq_iff_eq]
    tauto
  · unfold unread_from mark_read_on_open
    rw [← List.countP_eq_length_filter, ← List.countP_eq_length_filter,
      List.countP_map]
    apply List.countP_congr
    intro m _
    simp only [Function.comp_apply]
    by_cases h : (m.sender_id == pid && m.recipient_id == uid) = true
    · rw [if_pos h]
      simp only [Bool.and_eq_true, beq_iff_eq] at h
      apply iff_of_false
      · simp
      · simp only [Bool.and_eq_true, beq_iff_eq]
        rintro ⟨⟨_, hsq⟩, _⟩
        exact hq.symm (h.1.symm.trans hsq)
    · rw [if_neg h]

/-- C4 holds at a concrete instance: a store with one unread message from
partner 2 and one from partner 3, user 1 opening the chat with partner 2. -/
theorem C4_open_chat_marks_partner_read_only_holds_at_instance :
    unread_from
      (mark_read_on_open [⟨1, 2, 1, "a", 5, false⟩, ⟨2, 3, 1, "b", 6, false⟩] 1 2) 1 2 = 0 ∧
    (mark_read_on_open [⟨1, 2, 1, "a", 5, false⟩, ⟨2, 3, 1, "b", 6, false⟩] 1 2).length =
      ([⟨1, 2, 1, "a", 5, false⟩, ⟨2, 3, 1, "b", 6, false⟩] : DB).length ∧
    (∀ i (h1 : i < ([⟨1, 2, 1, "a", 5, false⟩, ⟨2, 3, 1, "b", 6, false⟩] : DB).length)
      (h2 : i < (mark_read_on_open [⟨1, 2, 1, "a", 5, false⟩, ⟨2, 3, 1, "b", 6, false⟩] 1 2).length),
      ¬ ((([⟨1, 2, 1, "a", 5, false⟩, ⟨2, 3, 1, "b", 6, false⟩] : DB).get ⟨i, h1⟩).sender_id = 2 ∧
         (([⟨1, 2, 1, "a", 5, false⟩, ⟨2, 3, 1, "b", 6, false⟩] : DB).get ⟨i, h1⟩).recipient_id = 1) →
      (mark_read_on_open [⟨1, 2, 1, "a", 5, false⟩, ⟨2, 3, 1, "b", 6, false⟩] 1 2).get ⟨i, h2⟩ =
        ([⟨1, 2, 1, "a", 5, false⟩, ⟨2, 3, 1, "b", 6, false⟩] : DB).get ⟨i, h1⟩) ∧
    unread_from
      (mark_read_on_open [⟨1, 2, 1, "a", 5, false⟩, ⟨2, 3, 1, "b", 6, false⟩] 1 2) 1 3 =
      unread_from [⟨1, 2, 1, "a", 5, false⟩, ⟨2, 3, 1, "b", 6, false⟩] 1 3 :=
  C4_open_chat_marks_partner_read_only
    [⟨1, 2, 1, "a", 5, false⟩, ⟨2, 3, 1, "b", 6, false⟩] 1 2 3 (by decide)

/-- Membership in a poller batch is exactly: a stored message of the open
conversation with id beyond the watermark. -/
theorem mem_poller_fetch (db : DB) (uid pid last : Nat) (m : Message) :
    m ∈ poller_fetch db uid pid last ↔
      m ∈ db ∧ last < m.id ∧ m.inThread uid pid = true := by
  unfold poller_fetch orderByIdAsc
  rw [(List.perm_insertionSort idAsc _).mem_iff]
  simp [List.mem_filter, and_assoc]

/-- A poller batch is sorted by ascending id. -/
theorem poller_fetch_sorted (db : DB) (uid pid last : Nat) :
    (poller_fetch db uid pid last).Pairwise idAsc :=
  List.sorted_insertionSort idAsc _

/-- Walking a batch and issuing `UPDATE ... WHERE id = ?` for every
partner-sent row equals one pass over the table marking rows whose id
occurs among the partner-sent batch ids. -/
theorem apply_read_receipts_eq_map (pid : Nat) (db : DB) (rows : List Message) :
    apply_read_receipts pid db rows =
      db.map (fun m =>
        if m.id ∈ (rows.filter (fun r => pid == r.sender_id)).map Message.id
        then { m with is_read := true } else m) := by
  induction rows generalizing db with
  | nil =>
      simp only [apply_read_receipts, List.foldl_nil, List.filter_nil,
        List.map_nil, List.not_mem_nil, if_false]
      exact (List.map_id db).symm
  | cons r rs ih =>
      unfold apply_read_receipts at ih ⊢
      simp only [List.foldl_cons]
      by_cases hr : (pid == r.sender_id) = true
      · rw [if_pos hr, ih (mark_read_by_id db r.id)]
        unfold mark_read_by_id
        rw [List.map_map]
        apply List.map_congr_left
        intro m _
        simp only [Function.comp_apply]
        by_cases hA : m.id = r.id
        · by_cases hB : m.id ∈ (rs.filter (fun r => pid == r.sender_id)).map Message.id
          · simp [List.filter_cons, hr, hA, hB]
          · simp [List.filter_cons, hr, hA, hB]
        · by_cases hB : m.id ∈ (rs.filter (fun r => pid == r.sender_id)).map Message.id
          · simp [List.filter_cons, hr, hA, hB]
          · simp [List.filter_cons, hr, hA, hB]
      · rw [if_neg hr, ih db, List.filter_cons_of_neg (by simpa using hr)]

/-- Advancing the watermark row by row over an ascending batch lands on a
value at least the old watermark (when no batch id undercuts it) and at
least every batch id. -/
theorem batch_last_spec :
    ∀ (l : List Message) (last : Nat),
      l.Pairwise idAsc → (∀ m ∈ l, last ≤ m.id) →
      last ≤ batch_last last l ∧ ∀ m ∈ l, m.id ≤ batch_last last l
  | [], last, _, _ => ⟨Nat.le_refl last, by simp⟩
  | a :: l, last, hsort, hge => by
      have hsort2 := List.pairwise_cons.mp hsort
      have ih := batch_last_spec l a.id hsort2.2 (fun m hm => hsort2.1 m hm)
      have hstep : batch_last last (a :: l) = batch_last a.id l := rfl
      refine ⟨?_, ?_⟩
      · rw [hstep]
        exact Nat.le_trans (hge a (List.mem_cons_self a l)) ih.1
      · intro m hm
        rw [hstep]
        rcases List.mem_cons.mp hm with h | h
        · subst h; exact ih.1
        · exact ih.2 m h

/-- C5: in one poller iteration, the fetched batch is exactly the open
conversation's messages with id beyond the watermark, processed in
ascending id order; the store update marks read exactly those rows whose id
is a partner-sent batch id, leaving every other row untouched; rows sent by
the current user are rendered but written back unchanged. -/
theorem C5_poller_fetch_and_receipts (db : DB) (uid pid last : Nat)
    (hids : (db.map Message.id).Nodup) (hup : uid ≠ pid) :
    (∀ m, m ∈ (poller_iteration db uid pid last).2.2 ↔
      (m ∈ db ∧ last < m.id ∧ m.inThread uid pid = true)) ∧
    (poller_iteration db uid pid last).2.2.Pairwise idAsc ∧
    ((poller_iteration db uid pid last).1.length = db.length ∧
     ∀ i (h1 : i < db.length) (h2 : i < (poller_iteration db uid pid last).1.length),
       (poller_iteration db uid pid last).1.get ⟨i, h2⟩ =
         (if (db.get ⟨i, h1⟩).id ∈
             (((poller_iteration db uid pid last).2.2.filter
               (fun r => pid == r.sender_id)).map Message.id)
          then { db.get ⟨i, h1⟩ with is_read := true } else db.get ⟨i, h1⟩)) ∧
    (∀ m ∈ (poller_iteration db uid pid last).2.2, m.sender_id = uid →
      m ∈ (poller_iteration db uid pid last).1) := by
  unfold poller_iteration
  simp only
  refine ⟨fun m => mem_poller_fetch db uid pid last m, poller_fetch_sorted db uid pid last,
    ⟨?_, ?_⟩, ?_⟩
  · rw [apply_read_receipts_eq_map]
    exact List.length_map db _
  · intro i h1 h2
    have hmap := apply_read_receipts_eq_map pid db (poller_fetch db uid pid last)
    simp only [List.get_eq_getElem]
    simp only [hmap, List.getElem_map]
  · intro m hm hsender
    have hmdb : m ∈ db := ((mem_poller_fetch db uid pid last m).mp hm).1
    rw [apply_read_receipts_eq_map]
    have hfix :
        (if m.id ∈ ((poller_fetch db uid pid last).filter
            (fun r => pid == r.sender_id)).map Message.id
         then { m with is_read := true } else m) = m := by
      rw [if_neg]
      intro hmem
      obtain ⟨r, hrf, hrid⟩ := List.mem_map.mp hmem
      have hrb := List.mem_filter.mp hrf
      have hrdb : r ∈ db := ((mem_poller_fetch db uid pid last r).mp hrb.1).1
      have hrm : r = m := List.inj_on_of_nodup_map hids hrdb hmdb hrid
      have hpr : pid = r.sender_id := by simpa using hrb.2
      rw [hrm, hsender] at hpr
      exact hup hpr.symm
    rw [← hfix]
    exact List.mem_map_of_mem _ hmdb

/-- `last := row.id` folded over a list is its last id (or the start value
when empty). -/
theorem batch_last_eq_getLastD :
    ∀ (l : List Message) (last : Nat),
      batch_last last l = (l.map Message.id).getLastD last
  | [], _ => rfl
  | a :: l, last => by
      have ih := batch_last_eq_getLastD l a.id
      simp only [batch_last, List.foldl_cons] at ih ⊢
      rw [ih, List.map_cons, List.getLastD_cons]

/-- Under id/timestamp alignment, sorting by `created_at DESC` sorts ids
strictly descending. -/
theorem orderByCreatedDesc_ids_strict (l : List Message) (ha : ids_aligned l) :
    (orderByCreatedDesc l).Pairwise (fun a b => b.id < a.id) := by
  have hsorted : (orderByCreatedDesc l).Pairwise createdDesc :=
    List.sorted_insertionSort createdDesc l
  have hperm : List.Perm (orderByCreatedDesc l) l := List.perm_insertionSort createdDesc l
  have hnd : ((orderByCreatedDesc l).map Message.id).Nodup :=
    ((hperm.map Message.id).symm).nodup ha.1
  have hne : (orderByCreatedDesc l).Pairwise (fun a b => a.id ≠ b.id) :=
    List.pairwise_map.mp hnd
  refine (hsorted.and hne).imp_of_mem ?_
  intro a b hma hmb hab
  rcases Nat.lt_or_ge b.id a.id with h | h
  · exact h
  · have hlt : a.id < b.id := Nat.lt_of_le_of_ne h hab.2
    have := (ha.2 a (hperm.mem_iff.mp hma) b (hperm.mem_iff.mp hmb)).mp hlt
    exact absurd hab.1 (Nat.not_le_of_lt this)

/-- Under alignment, every message of the initial window has id at most the
recorded watermark `last_msg`. -/
theorem initial_window_le_last (db : DB) (uid pid : Nat)
    (ha : ids_aligned (db.filter (fun m => m.inThread uid pid))) :
    ∀ m ∈ initial_window db uid pid, m.id ≤ initial_last_msg db uid pid := by
  have hstrict := orderByCreatedDesc_ids_strict _ ha
  have htake : (((orderByCreatedDesc (db.filter (fun m => m.inThread uid pid))).drop
      0).take messages_per_page).Pairwise (fun a b => b.id < a.id) :=
    List.Pairwise.sublist (List.take_sublist _ _)
      (List.Pairwise.sublist (List.drop_sublist _ _) hstrict)
  have hwin : (initial_window db uid pid).Pairwise idAsc := by
    unfold initial_window messages_with
    rw [List.pairwise_reverse]
    exact htake.imp (fun h => Nat.le_of_lt h)
  have heq : initial_last_msg db uid pid = batch_last 0 (initial_window db uid pid) :=
    (batch_last_eq_getLastD (initial_window db uid pid) 0).symm
  intro m hm
  rw [heq]
  exact (batch_last_spec (initial_window db uid pid) 0 hwin (fun _ _ => Nat.zero_le _)).2 m hm

/-- One poller step: invariant preservation, watermark monotonicity, batch
append, and freshness of the batch against everything already rendered. -/
theorem poll_step_spec (uid pid : Nat) (st : Nat × List Message) (db : DB)
    (hinv : ∀ m ∈ st.2, m.id ≤ st.1) :
    (∀ m ∈ (poll_step uid pid st db).2, m.id ≤ (poll_step uid pid st db).1) ∧
    st.1 ≤ (poll_step uid pid st db).1 ∧
    (poll_step uid pid st db).2 = st.2 ++ poller_fetch db uid pid st.1 ∧
    (∀ m ∈ poller_fetch db uid pid st.1, m.id ∉ st.2.map Message.id) := by
  have hgt : ∀ m ∈ poller_fetch db uid pid st.1, st.1 < m.id :=
    fun m hm => ((mem_poller_fetch db uid pid st.1 m).mp hm).2.1
  have hbl := batch_last_spec (poller_fetch db uid pid st.1) st.1
    (poller_fetch_sorted db uid pid st.1) (fun m hm => Nat.le_of_lt (hgt m hm))
  refine ⟨?_, hbl.1, rfl, ?_⟩
  · intro m hm
    rcases List.mem_append.mp hm with h | h
    · exact Nat.le_trans (hinv m h) hbl.1
    · exact hbl.2 m h
  · intro m hm hmem
    obtain ⟨m2, hm2, hid⟩ := List.mem_map.mp hmem
    have := hinv m2 hm2
    have := hgt m hm
    omega

/-- The rendered-covered-by-watermark invariant survives any number of
poller iterations. -/
theorem session_inv (uid pid : Nat) :
    ∀ (dbs : List DB) (st : Nat × List Message),
      (∀ m ∈ st.2, m.id ≤ st.1) →
      ∀ m ∈ (dbs.foldl (poll_step uid pid) st).2,
        m.id ≤ (dbs.foldl (poll_step uid pid) st).1
  | [], _, hinv => hinv
  | db :: dbs, st, hinv => by
      rw [List.foldl_cons]
      exact session_inv uid pid dbs (poll_step uid pid st db)
        (poll_step_spec uid pid st db hinv).1

/-- Taking one more poller iteration applies `poll_step` once. -/
theorem session_run_take_succ (uid pid : Nat) (db0 : DB) (dbs : List DB)
    (k : Nat) (hk : k < dbs.length) :
    session_run uid pid db0 (dbs.take (k + 1)) =
      poll_step uid pid (session_run uid pid db0 (dbs.take k)) (dbs.get ⟨k, hk⟩) := by
  unfold session_run
  rw [List.take_succ]
  have : dbs[k]?.toList = [dbs.get ⟨k, hk⟩] := by
    rw [List.getElem?_eq_getElem hk]
    rfl
  rw [this, List.foldl_append, List.foldl_cons, List.foldl_nil]

/-- C2 (amended: assuming the conversation's ids are strictly aligned with
its timestamps): across a session — initial window load, then one poller
batch per store snapshot — the watermark `last_msg` never decreases, after
each update it is at least the id of every message rendered so far, and no
poller batch repeats an id that was already rendered. -/
theorem C2_watermark_covers_rendered (uid pid : Nat) (db0 : DB) (dbs : List DB)
    (ha : ids_aligned (db0.filter (fun m => m.inThread uid pid))) :
    ∀ k, k ≤ dbs.length →
      (∀ m ∈ (session_run uid pid db0 (dbs.take k)).2,
        m.id ≤ (session_run uid pid db0 (dbs.take k)).1) ∧
      (k < dbs.length →
        (session_run uid pid db0 (dbs.take k)).1 ≤
          (session_run uid pid db0 (dbs.take (k + 1))).1 ∧
        ∀ m ∈ (session_run uid pid db0 (dbs.take (k + 1))).2.drop
            (session_run uid pid db0 (dbs.take k)).2.length,
          m.id ∉ (session_run uid pid db0 (dbs.take k)).2.map Message.id) := by
  intro k hk
  have hbase : ∀ m ∈ initial_window db0 uid pid, m.id ≤ initial_last_msg db0 uid pid :=
    initial_window_le_last db0 uid pid ha
  have hinvk : ∀ m ∈ (session_run uid pid db0 (dbs.take k)).2,
      m.id ≤ (session_run uid pid db0 (dbs.take k)).1 :=
    session_inv uid pid (dbs.take k) _ hbase
  refine ⟨hinvk, ?_⟩
  intro hklt
  have hspec := poll_step_spec uid pid (session_run uid pid db0 (dbs.take k))
    (dbs.get ⟨k, hklt⟩) hinvk
  rw [session_run_take_succ uid pid db0 dbs k hklt]
  refine ⟨hspec.2.1, ?_⟩
  intro m hm
  rw [hspec.2.2.1, List.drop_left] at hm
  exact hspec.2.2.2 m hm

/-- C2 as stated is false: with two partner messages in the same second,
the initial window renders ids 2 then 1, the watermark lands on 1 (< 2),
and the first poller batch re-renders the already-shown id 2. -/
theorem C2_counterexample :
    ¬ (∀ (uid pid : Nat) (db0 : DB) (dbs : List DB),
        ∀ k, k ≤ dbs.length →
          (∀ m ∈ (session_run uid pid db0 (dbs.take k)).2,
            m.id ≤ (session_run uid pid db0 (dbs.take k)).1) ∧
          (k < dbs.length →
            (session_run uid pid db0 (dbs.take k)).1 ≤
              (session_run uid pid db0 (dbs.take (k + 1))).1 ∧
            ∀ m ∈ (session_run uid pid db0 (dbs.take (k + 1))).2.drop
                (session_run uid pid db0 (dbs.take k)).2.length,
              m.id ∉ (session_run uid pid db0 (dbs.take k)).2.map Message.id)) := by
  intro h
  have h2 := ((h 1 2 [cxA, cxB] [[cxA, cxB]] 0 (by decide)).2 (by decide)).2
    cxB (by decide)
  exact absurd h2 (by decide)

/-- C2 (amended) holds at a concrete instance: an aligned two-message
thread, watermark monotone over the first poller iteration. -/
theorem C2_watermark_covers_rendered_holds_at_instance :
    (session_run 1 2 [⟨1, 2, 1, "a", 100, false⟩, ⟨2, 2, 1, "b", 200, false⟩]
        (([[⟨1, 2, 1, "a", 100, false⟩, ⟨2, 2, 1, "b", 200, false⟩]] : List DB).take 0)).1 ≤
      (session_run 1 2 [⟨1, 2, 1, "a", 100, false⟩, ⟨2, 2, 1, "b", 200, false⟩]
        (([[⟨1, 2, 1, "a", 100, false⟩, ⟨2, 2, 1, "b", 200, false⟩]] : List DB).take 1)).1 :=
  ((C2_watermark_covers_rendered 1 2
      [⟨1, 2, 1, "a", 100, false⟩, ⟨2, 2, 1, "b", 200, false⟩]
      [[⟨1, 2, 1, "a", 100, false⟩, ⟨2, 2, 1, "b", 200, false⟩]]
      (by decide) 0 (by decide)).2 (by decide)).1

/-- Load 0 is the initial window of `goto_chat_view`. -/
theorem window_at_zero (db : DB) (uid pid : Nat) :
    window_at db uid pid 0 = initial_window db uid pid := rfl

/-- Window members come from the corresponding slice of the sorted thread. -/
theorem mem_window_at (db : DB) (uid pid k : Nat) (m : Message)
    (hm : m ∈ window_at db uid pid k) :
    m ∈ ((orderByCreatedDesc (db.filter (fun m2 => m2.inThread uid pid))).drop
      (messages_per_page * k)).take messages_per_page := by
  unfold window_at messages_with at hm
  exact List.mem_reverse.mp hm

/-- C3 (amended: fixed store between loads, ids strictly aligned with
timestamps): every message of a later window has id strictly below every
message of every earlier window, and no window repeats an id. -/
theorem C3_older_windows_strictly_older (db : DB) (uid pid : Nat)
    (ha : ids_aligned (db.filter (fun m => m.inThread uid pid))) :
    (∀ j k, j < k →
      ∀ m ∈ window_at db uid pid k, ∀ m2 ∈ window_at db uid pid j, m.id < m2.id) ∧
    (∀ k, ((window_at db uid pid k).map Message.id).Nodup) := by
  have hstrict := orderByCreatedDesc_ids_strict _ ha
  constructor
  · intro j k hjk m hm m2 hm2
    have hmk := mem_window_at db uid pid k m hm
    have hmj := mem_window_at db uid pid j m2 hm2
    set sorted := orderByCreatedDesc (db.filter (fun m2 => m2.inThread uid pid)) with hs
    have hsplit := List.take_append_drop (messages_per_page * j + messages_per_page) sorted
    have hcross :
        ∀ a ∈ sorted.take (messages_per_page * j + messages_per_page),
        ∀ b ∈ sorted.drop (messages_per_page * j + messages_per_page), b.id < a.id := by
      have := (List.pairwise_append.mp (hsplit ▸ hstrict)).2.2
      exact this
    have hm2mem : m2 ∈ sorted.take (messages_per_page * j + messages_per_page) := by
      rw [List.take_add]
      exact List.mem_append_right _ hmj
    have hmmem : m ∈ sorted.drop (messages_per_page * j + messages_per_page) := by
      have hle : messages_per_page * j + messages_per_page ≤ messages_per_page * k := by
        have h1 : messages_per_page * (j + 1) ≤ messages_per_page * k :=
          Nat.mul_le_mul_left messages_per_page hjk
        rw [Nat.mul_add, Nat.mul_one] at h1
        exact h1
      have hdd : sorted.drop (messages_per_page * k) =
          (sorted.drop (messages_per_page * j + messages_per_page)).drop
            (messages_per_page * k - (messages_per_page * j + messages_per_page)) := by
        rw [List.drop_drop]
        congr 1
        omega
      have hmdrop : m ∈ sorted.drop (messages_per_page * k) :=
        (List.take_sublist _ _).subset hmk
      rw [hdd] at hmdrop
      exact (List.drop_sublist _ _).subset hmdrop
    exact hcross m2 hm2mem m hmmem
  · intro k
    have hsub : ((orderByCreatedDesc (db.filter (fun m2 => m2.inThread uid pid))).drop
        (messages_per_page * k)).take messages_per_page |>.Pairwise
          (fun a b => b.id < a.id) :=
      List.Pairwise.sublist (List.take_sublist _ _)
        (List.Pairwise.sublist (List.drop_sublist _ _) hstrict)
    unfold window_at messages_with
    rw [List.map_reverse, List.nodup_reverse]
    have : (((orderByCreatedDesc (db.filter (fun m2 => m2.inThread uid pid))).drop
        (messages_per_page * k)).take messages_per_page).Pairwise
          (fun a b => a.id ≠ b.id) :=
      hsub.imp (fun h => by omega)
    exact List.pairwise_map.mpr this

/-- C3 as stated is false once the store grows between loads: after an
11-message initial load (showing ids 2..11), one new message arrives, and
the first `/more` at the shifted offset returns ids 1 and 2 — id 2 repeats
and is not strictly older than the initial window. -/
theorem C3_counterexample :
    ¬ (∀ (db news : DB) (uid pid : Nat),
        ∀ m ∈ older_window (db ++ news) uid pid 0,
          ∀ m2 ∈ initial_window db uid pid, m.id < m2.id) := by
  intro h
  exact absurd (h cxDb11 [pMsg 12] 1 2 (pMsg 2) (by decide) (pMsg 2) (by decide))
    (by decide)

/-- C3 (amended) holds at a concrete instance: the aligned 11-message
thread on a fixed store — the second window's id 1 is strictly below the
initial window's id 2, and the initial window's ids are distinct. -/
theorem C3_older_windows_strictly_older_holds_at_instance :
    (pMsg 1).id < (pMsg 2).id ∧
    ((window_at cxDb11 1 2 0).map Message.id).Nodup :=
  ⟨(C3_older_windows_strictly_older cxDb11 1 2 (by decide)).1 0 1 (by decide)
      (pMsg 1) (by decide) (pMsg 2) (by decide),
   (C3_older_windows_strictly_older cxDb11 1 2 (by decide)).2 0⟩

/-- `find?` over pairs built from a list of keys finds the pair of the first
matching key. -/
theorem find_map_pair (l : List Nat) (f : Nat → Nat) (p : Nat) :
    (l.map (fun s => (s, f s))).find? (fun r => r.1 == p) =
      (l.find? (fun s => s == p)).map (fun s => (s, f s)) := by
  induction l with
  | nil => rfl
  | cons a l ih =>
      simp only [List.map_cons, List.find?_cons]
      cases h : (a == p)
      · simpa [h] using ih
      · simp [h]

/-- `find?` with an equality test returns the key iff it occurs. -/
theorem find_eq_of_mem (l : List Nat) (p : Nat) :
    l.find? (fun s => s == p) = if p ∈ l then some p else none := by
  induction l with
  | nil => rfl
  | cons a l ih =>
      simp only [List.find?_cons]
      by_cases h : a = p
      · subst h
        simp
      · have h2 : (a == p) = false := by simpa using h
        simp only [h2, ih]
        by_cases hp : p ∈ l
        · rw [if_pos hp, if_pos (List.mem_cons_of_mem a hp)]
        · rw [if_neg hp, if_neg ?_]
          intro hmem
          rcases List.mem_cons.mp hmem with hpa | hpl
          · exact h hpa.symm
          · exact hp hpl

/-- The GROUP-BY/LEFT-JOIN/COALESCE pipeline computes exactly the claim's
formula: the number of unread rows from `p` to `uid`. -/
theorem num_unread_of_eq_unread_from (db : DB) (uid p : Nat) :
    num_unread_of db uid p = unread_from db uid p := by
  unfold num_unread_of unread_totals
  rw [find_map_pair, find_eq_of_mem]
  by_cases hp : p ∈ ((db.filter
      (fun m => m.recipient_id == uid && m.is_read == false)).map Message.sender_id).dedup
  · rw [if_pos hp]
    simp only [Option.map_some']
    unfold unread_from
    rw [List.filter_filter]
    congr 1
    apply List.filter_congr
    intro m _
    cases h1 : (m.recipient_id == uid) <;> cases h2 : (m.sender_id == p) <;>
      cases h3 : (m.is_read == false) <;> simp [h1, h2, h3]
  · rw [if_neg hp]
    simp only [Option.map_none']
    unfold unread_from
    rw [eq_comm, List.length_eq_zero]
    rw [List.filter_eq_nil_iff]
    intro m hm hcond
    apply hp
    rw [List.mem_dedup]
    simp only [Bool.and_eq_true, beq_iff_eq] at hcond
    rw [← hcond.1.2]
    apply List.mem_map_of_mem Message.sender_id
    rw [List.mem_filter]
    refine ⟨hm, ?_⟩
    simp [hcond.1.1, hcond.2]

/-- C6: every row of every conversation list returned by the aggregator
reports as `num_unread` exactly the number of stored rows with
`recipient_id = user`, `sender_id = that partner` and `is_read = false`
(0 when no such rows exist, via the COALESCE). -/
theorem C6_unread_count_formula (db : DB) (users : List UserRow) (uid : Nat)
    (limit : Option Nat) (offset : Nat) :
    ∀ row ∈ chats db users uid limit offset,
      row.num_unread = unread_from db uid row.chat_partner_id := by
  intro row hrow
  have hall : row ∈ chats_all db users uid := by
    unfold chats at hrow
    by_cases hl : limit_truthy limit = true
    · rw [if_pos hl] at hrow
      exact (List.drop_sublist _ _).subset ((List.take_sublist _ _).subset hrow)
    · rw [if_neg hl] at hrow
      exact hrow
  unfold chats_all at hall
  rcases List.mem_filterMap.mp ((List.perm_insertionSort chatTsDesc _).mem_iff.mp hall)
    with ⟨p, _, hfp⟩
  rcases hlt : latest_for_partner db uid p with _ | t
  · rw [hlt] at hfp
    cases hfp
  rcases hfu : users.find? (fun u => u.id == p && u.is_disabled == false) with _ | u
  · rw [hlt, hfu] at hfp
    cases hfp
  rw [hlt, hfu] at hfp
  have hrow2 : (⟨u.username, u.role, t.sender_id, p, t.message, t.timestamp,
      num_unread_of db uid p⟩ : ChatRow) = row := by
    injection hfp
  rw [← hrow2]
  exact num_unread_of_eq_unread_from db uid p

/-- C6 holds at a concrete instance: one unread message from partner 2 to
user 1, one conversation row, unread count 1. -/
theorem C6_unread_count_formula_holds_at_instance :
    (⟨"bob", "leader", 2, 2, "hi", 5, 1⟩ : ChatRow).num_unread =
      unread_from [⟨1, 2, 1, "hi", 5, false⟩] 1
        (⟨"bob", "leader", 2, 2, "hi", 5, 1⟩ : ChatRow).chat_partner_id :=
  C6_unread_count_formula [⟨1, 2, 1, "hi", 5, false⟩] [⟨2, "bob", "leader", false⟩]
    1 none 0 ⟨"bob", "leader", 2, 2, "hi", 5, 1⟩ (by decide)

/-- C9: because the LIMIT clause is appended only when `limit` is truthy
(`if limit:` in Python), `chats(limit=0, offset=k)` ignores the offset and
returns the full unpaginated conversation list, exactly as
`chats(limit=None)` does. -/
theorem C9_zero_limit_returns_full_list (db : DB) (users : List UserRow)
    (uid k : Nat) :
    chats db users uid (some 0) k = chats_all db users uid ∧
    chats db users uid (some 0) k = chats db users uid none 0 := by
  constructor <;> simp [chats, limit_truthy]

/-- C5 holds at a concrete instance: watermark 1, partner message with
id 2 is fetched. -/
theorem C5_poller_fetch_and_receipts_holds_at_instance :
    (⟨2, 2, 1, "b", 6, false⟩ : Message) ∈
        (poller_iteration [⟨1, 2, 1, "a", 5, false⟩, ⟨2, 2, 1, "b", 6, false⟩] 1 2 1).2.2 ↔
      ((⟨2, 2, 1, "b", 6, false⟩ : Message) ∈
          ([⟨1, 2, 1, "a", 5, false⟩, ⟨2, 2, 1, "b", 6, false⟩] : DB) ∧
        1 < (⟨2, 2, 1, "b", 6, false⟩ : Message).id ∧
        (⟨2, 2, 1, "b", 6, false⟩ : Message).inThread 1 2 = true) :=
  (C5_poller_fetch_and_receipts [⟨1, 2, 1, "a", 5, false⟩, ⟨2, 2, 1, "b", 6, false⟩]
    1 2 1 (by decide) (by decide)).1 ⟨2, 2, 1, "b", 6, false⟩

end Camptrack
